import Mathlib

/-!
Verification of the agent-memory-protocol storage core.

This file shallowly embeds the storage/retrieval core of the repository
(`src/database.ts` and the MCP tool handlers) and settles the frozen claims
about it.

Modelling conventions:
* Timestamps are natural numbers (seconds since some epoch); SQLite
  `datetime` arithmetic such as `datetime('now', '-15 minutes')` becomes
  explicit arithmetic on these numbers.  Millisecond timestamps (used by the
  JavaScript `Date.now()` decay computation) are rationals.
* SQLite `REAL` columns and JavaScript numbers are modelled as exact
  rationals `ℚ`; IEEE-754 rounding is outside the scope of the embedding.
* The sha256 digest of `computeHash` is modelled as the identity on the
  normalized string: the digest is injective up to collisions, and no claim
  depends on the hex representation, only on equality of fingerprints.
* The FTS5 full-text index is modelled as a partial map from rowid to the
  indexed column values; the three triggers (`experiences_ai`, `_ad`, `_au`)
  become explicit updates of that map performed by every statement that
  touches the `experiences` table.
-/

namespace AgentMemory

/-! ## Text normalizer and fingerprinter (`normalizeText`, `computeHash`) -/

/-- One step of `String.replace` with the regex `\s+`: collapse every maximal
run of whitespace to a single space.  `prevWs` records whether the previous
character was part of a whitespace run. -/
def collapseWsAux : Bool → List Char → List Char
  | _, [] => []
  | prevWs, c :: cs =>
    if c.isWhitespace then
      if prevWs then collapseWsAux true cs
      else ' ' :: collapseWsAux true cs
    else c :: collapseWsAux false cs

/-- `text.replace(/\s+/g, " ")` from `normalizeText`. -/
def collapseWs (l : List Char) : List Char := collapseWsAux false l

/-- `String.prototype.trim`: drop whitespace from both ends. -/
def trimChars (l : List Char) : List Char :=
  ((l.dropWhile Char.isWhitespace).reverse.dropWhile Char.isWhitespace).reverse

/-- `normalizeText` from `database.ts`:
`text.toLowerCase().replace(/\s+/g, " ").trim()`. -/
def normalizeText (s : String) : String :=
  (trimChars (collapseWs (s.toList.map Char.toLower))).asString

/-- `computeHash` from `database.ts`: the sha256 digest of
`normalizeText(context ++ "|" ++ action ++ "|" ++ result)`, with the digest
modelled as the identity on the normalized string. -/
def computeHash (context action result : String) : String :=
  normalizeText (context ++ "|" ++ action ++ "|" ++ result)

/-- Canonical form of a text up to case and whitespace runs: lowercase every
character and collapse each maximal whitespace run to one space.  Two texts
differ only in letter case and in the widths of their whitespace runs
exactly when their canonical forms coincide. -/
def canonText (s : String) : List Char :=
  collapseWs (s.toList.map Char.toLower)

/-! ## Data model: the `experiences` table and the FTS index -/

/-- One row of the `experiences` table. -/
structure ExpRow where
  id : Nat
  type : String
  context : String
  action : String
  result : String
  success : Nat
  tags : String
  project : String
  created_at : Nat
  deleted_at : Option Nat
  normalized_hash : String
  duplicate_count : Nat
  last_seen_at : Option Nat
  topic_key : Option String
  revision_count : Nat
deriving DecidableEq

/-- The columns indexed by the `experiences_fts` FTS5 table. -/
structure FtsEntry where
  context : String
  action : String
  result : String
  tags : String
deriving DecidableEq

/-- The FTS columns of an `experiences` row. -/
def ftsEntryOf (r : ExpRow) : FtsEntry :=
  ⟨r.context, r.action, r.result, r.tags⟩

/-- The experiences side of the database: the `experiences` table (in rowid
insertion order), the FTS index as a map from rowid to indexed columns, and
the next AUTOINCREMENT id. -/
structure MemoryDB where
  experiences : List ExpRow
  fts : Nat → Option FtsEntry
  nextId : Nat

/-- A freshly initialized database. -/
def emptyDB : MemoryDB := ⟨[], fun _ => none, 1⟩

/-- Insert (or, for the update trigger, replace) the index entry of a rowid:
`INSERT INTO experiences_fts(rowid, ...)` after
`INSERT INTO experiences_fts(experiences_fts, rowid, ...) VALUES ('delete', ...)`. -/
def ftsInsert (fts : Nat → Option FtsEntry) (id : Nat) (e : FtsEntry) :
    Nat → Option FtsEntry :=
  fun k => if k = id then some e else fts k

/-- Run one SQL `UPDATE experiences SET ... WHERE ...` statement: rows
satisfying `p` are replaced by their image under `f` (all updates of the
source leave `id` unchanged), the `experiences_au` trigger replaces the FTS
entry of every updated row, and the returned number is `result.changes`. -/
def applyRowUpdate (p : ExpRow → Bool) (f : ExpRow → ExpRow) (db : MemoryDB) :
    MemoryDB × Nat :=
  ({ experiences := db.experiences.map fun r => if p r then f r else r
     fts := (db.experiences.filter p).foldl
       (fun acc r => ftsInsert acc r.id (ftsEntryOf (f r))) db.fts
     nextId := db.nextId },
   (db.experiences.filter p).length)

/-- The dedup window: `datetime('now', '-15 minutes')`, in seconds. -/
def dedupWindow : Nat := 900

/-- The `findDuplicate` prepared query: first row with the given fingerprint
and project that is active and was created within the last 15 minutes. -/
def findDuplicate (db : MemoryDB) (hash project : String) (now : Nat) :
    Option ExpRow :=
  db.experiences.find? fun r =>
    r.normalized_hash == hash && r.project == project &&
      r.deleted_at.isNone && decide (now ≤ r.created_at + dedupWindow)

/-- The `findByTopicKey` prepared query: first active row with the given
topic key and project (SQL `topic_key = @topic_key` never matches a NULL
stored key). -/
def findByTopicKey (db : MemoryDB) (tk project : String) : Option ExpRow :=
  db.experiences.find? fun r =>
    r.topic_key == some tk && r.project == project && r.deleted_at.isNone

/-- The `incrementDuplicate` prepared statement. -/
def incrementDuplicate (db : MemoryDB) (id now : Nat) : MemoryDB × Nat :=
  applyRowUpdate (fun r => r.id == id)
    (fun r => { r with duplicate_count := r.duplicate_count + 1,
                       last_seen_at := some now }) db

/-- The `updateByTopicKey` prepared statement applied with the given new
content. -/
def updateByTopicKey (db : MemoryDB) (id now : Nat)
    (context action result : String) (success : Nat) (tags hash : String) :
    MemoryDB × Nat :=
  applyRowUpdate (fun r => r.id == id)
    (fun r => { r with context := context, action := action, result := result,
                       success := success, tags := tags,
                       normalized_hash := hash,
                       revision_count := r.revision_count + 1,
                       last_seen_at := some now }) db

/-- The arguments of `insertOrDeduplicate`. -/
structure RecordParams where
  type : String
  context : String
  action : String
  result : String
  success : Nat
  tags : String
  project : String
  topic_key : Option String
deriving DecidableEq

/-- The outcome reported by a `record` call. -/
inductive RecordOutcome
  | created
  | deduplicated
  | upserted
deriving DecidableEq

/-- JavaScript truthiness of the optional `topic_key` string:
`if (params.topic_key)` skips both an absent and an empty topic key, and
`params.topic_key || null` stores NULL in both cases. -/
def truthyTopic : Option String → Option String
  | some tk => if tk = "" then none else some tk
  | none => none

/-- The row built by the final `INSERT INTO experiences ...` of
`insertOrDeduplicate`: fresh id, `created_at` and `last_seen_at` of now,
counters at 1, and the (falsy-normalized) topic key. -/
def newRowOf (db : MemoryDB) (now : Nat) (p : RecordParams) (hash : String) :
    ExpRow :=
  { id := db.nextId, type := p.type, context := p.context,
    action := p.action, result := p.result, success := p.success,
    tags := p.tags, project := p.project, created_at := now,
    deleted_at := none, normalized_hash := hash, duplicate_count := 1,
    last_seen_at := some now, topic_key := truthyTopic p.topic_key,
    revision_count := 1 }

/-- The final insert of `insertOrDeduplicate`, firing the `experiences_ai`
trigger. -/
def insertNewRow (db : MemoryDB) (now : Nat) (p : RecordParams)
    (hash : String) : MemoryDB :=
  { experiences := db.experiences ++ [newRowOf db now p hash]
    fts := ftsInsert db.fts db.nextId (ftsEntryOf (newRowOf db now p hash))
    nextId := db.nextId + 1 }

/-- The dedup check of `insertOrDeduplicate` followed, when no duplicate is
found, by the fresh insert. -/
def dedupOrInsert (db : MemoryDB) (now : Nat) (p : RecordParams)
    (hash : String) : MemoryDB × Nat × RecordOutcome :=
  match findDuplicate db hash p.project now with
  | some dup => ((incrementDuplicate db dup.id now).1, dup.id, .deduplicated)
  | none => (insertNewRow db now p hash, db.nextId, .created)

/-- `insertOrDeduplicate` from `database.ts`: topic upsert first, then the
15-minute dedup check, else a fresh insert.  Returns the new state together
with the reported id and outcome. -/
def insertOrDeduplicate (db : MemoryDB) (now : Nat) (p : RecordParams) :
    MemoryDB × Nat × RecordOutcome :=
  match truthyTopic p.topic_key with
  | some tk =>
    match findByTopicKey db tk p.project with
    | some existing =>
      ((updateByTopicKey db existing.id now p.context p.action p.result
          p.success p.tags (computeHash p.context p.action p.result)).1,
       existing.id, .upserted)
    | none =>
      dedupOrInsert db now p (computeHash p.context p.action p.result)
  | none => dedupOrInsert db now p (computeHash p.context p.action p.result)

/-! ## Soft delete, prune, timeline, search -/

/-- Whether `pat` occurs as a contiguous substring of `hay`, on character
lists. -/
def listContains (pat : List Char) : List Char → Bool
  | [] => pat.isPrefixOf []
  | c :: cs => pat.isPrefixOf (c :: cs) || listContains pat cs

/-- SQL `hay LIKE '%' || pat || '%'`: substring containment, and SQLite LIKE
is case-insensitive on ASCII.  (`%` and `_` wildcards occurring inside `pat`
itself are not modelled; no claim supplies a tag containing them.) -/
def likeContains (hay pat : String) : Bool :=
  listContains (pat.toList.map Char.toLower) (hay.toList.map Char.toLower)

/-- `softDeleteExperienceById`. -/
def softDeleteExperienceById (db : MemoryDB) (now id : Nat) : MemoryDB × Nat :=
  applyRowUpdate (fun r => r.id == id && r.deleted_at.isNone)
    (fun r => { r with deleted_at := some now }) db

/-- `softDeleteExperiencesByTag`. -/
def softDeleteExperiencesByTag (db : MemoryDB) (now : Nat) (tag : String) :
    MemoryDB × Nat :=
  applyRowUpdate (fun r => likeContains r.tags tag && r.deleted_at.isNone)
    (fun r => { r with deleted_at := some now }) db

/-- `softDeleteExperiencesByProject`. -/
def softDeleteExperiencesByProject (db : MemoryDB) (now : Nat)
    (project : String) : MemoryDB × Nat :=
  applyRowUpdate (fun r => r.project == project && r.deleted_at.isNone)
    (fun r => { r with deleted_at := some now }) db

/-- `pruneOldExperiences`: soft-delete active rows older than `days` days,
restricted to failures when `only_failures` is 1. -/
def pruneOldExperiences (db : MemoryDB) (now days only_failures : Nat) :
    MemoryDB × Nat :=
  applyRowUpdate
    (fun r => decide (r.created_at + days * 86400 < now) &&
      (only_failures == 0 || r.success == 0) && r.deleted_at.isNone)
    (fun r => { r with deleted_at := some now }) db

/-- The compact row shape returned by the timeline and compact searches:
`substr(context, 1, 120)` is the snippet. -/
structure CompactRow where
  id : Nat
  type : String
  tags : String
  created_at : Nat
  success : Nat
  project : String
  snippet : String
deriving DecidableEq

/-- Project an experiences row to its compact shape. -/
def compactOf (r : ExpRow) : CompactRow :=
  ⟨r.id, r.type, r.tags, r.created_at, r.success, r.project,
    (r.context.toList.take 120).asString⟩

/-- `getExperienceTimeline`: the anchor subquery
`SELECT created_at FROM experiences WHERE id = @id` has no `deleted_at`
filter, so a soft-deleted row still anchors the window.  Active rows with
`created_at` within ±1 hour of the anchor are returned ascending by
`created_at` (insertion order on ties, as a full scan produces), capped at
20 rows. -/
def getExperienceTimeline (db : MemoryDB) (id : Nat) : List CompactRow :=
  match db.experiences.find? (fun r => r.id == id) with
  | none => []
  | some target =>
    (((db.experiences.filter fun r =>
        r.deleted_at.isNone &&
          decide (target.created_at ≤ r.created_at + 3600) &&
          decide (r.created_at ≤ target.created_at + 3600)).map compactOf
      ).insertionSort fun a b => a.created_at ≤ b.created_at).take 20

/-- `getExperienceById`: active rows only. -/
def getExperienceById (db : MemoryDB) (id : Nat) : Option ExpRow :=
  db.experiences.find? fun r => r.id == id && r.deleted_at.isNone

/-- `recency_score` of a row: `1.0 / (1.0 + julianday('now') -
julianday(created_at))`, with timestamps in seconds and days of 86400
seconds. -/
def recencyScore (now created : Nat) : ℚ :=
  1 / (1 + ((now : ℚ) - (created : ℚ)) / 86400)

/-- `success_score`: `CASE WHEN success = 1 THEN 1.0 ELSE 0.5 END`. -/
def successScore (success : Nat) : ℚ := if success = 1 then 1 else 1 / 2

/-- The ORDER BY key of `searchExperiencesCompact`:
`(bm25 * -1.0) * 0.5 + recency * 0.3 + success * 0.2`.  `bm25` is the FTS5
relevance of the row (more relevant = more negative), supplied as an oracle
indexed by rowid. -/
def searchScore (bm25 : Nat → ℚ) (now : Nat) (r : ExpRow) : ℚ :=
  bm25 r.id * (-1) * (1 / 2) + recencyScore now r.created_at * (3 / 10) +
    successScore r.success * (1 / 5)

/-- The ORDER BY key of `searchExperiencesCompactByProject`: the plain score
plus `CASE WHEN project = @project THEN 0.1 ELSE 0.0 END`. -/
def searchScoreByProject (bm25 : Nat → ℚ) (now : Nat) (project : String)
    (r : ExpRow) : ℚ :=
  searchScore bm25 now r + (if r.project = project then 1 / 10 else 0)

/-- The FTS5 `MATCH` join of the search queries: rows whose index entry
exists and matches the query, the match predicate being supplied as an
oracle on the indexed columns. -/
def ftsMatches (db : MemoryDB) (matchQ : FtsEntry → Bool) (r : ExpRow) :
    Bool :=
  match db.fts r.id with
  | some e => matchQ e
  | none => false

/-- `searchExperiencesCompact`: active matching rows ordered descending by
the score (`ORDER BY` has no further key, so equal scores keep scan order),
then `LIMIT @limit`. -/
def searchExperiencesCompact (db : MemoryDB) (matchQ : FtsEntry → Bool)
    (bm25 : Nat → ℚ) (now limit : Nat) : List CompactRow :=
  ((((db.experiences.filter fun r =>
      ftsMatches db matchQ r && r.deleted_at.isNone).insertionSort
        fun a b => searchScore bm25 now b ≤ searchScore bm25 now a
     ).map compactOf).take limit)

/-- `searchExperiencesCompactByProject`: like the plain compact search but
restricted to rows of the requested project or of the empty (global)
project, with the 0.1 project bonus added to the score. -/
def searchExperiencesCompactByProject (db : MemoryDB)
    (matchQ : FtsEntry → Bool) (bm25 : Nat → ℚ) (project : String)
    (now limit : Nat) : List CompactRow :=
  ((((db.experiences.filter fun r =>
      ftsMatches db matchQ r && (r.project == project || r.project == "") &&
        r.deleted_at.isNone).insertionSort
        fun a b => searchScoreByProject bm25 now project b ≤
          searchScoreByProject bm25 now project a
     ).map compactOf).take limit)

/-! ## The `forget_memory` tool handler -/

/-- `if (id) { ... softDeleteExperienceById ... }` of the handler: id 0 is
falsy and skipped. -/
def forgetById (now : Nat) (id : Option Nat) (db : MemoryDB) :
    MemoryDB × Nat :=
  match id with
  | some v => if v == 0 then (db, 0) else softDeleteExperienceById db now v
  | none => (db, 0)

/-- `if (tag) { ... softDeleteExperiencesByTag ... }` of the handler. -/
def forgetByTag (now : Nat) (tag : Option String) (db : MemoryDB) :
    MemoryDB × Nat :=
  match tag with
  | some t => if t == "" then (db, 0) else softDeleteExperiencesByTag db now t
  | none => (db, 0)

/-- `if (project) { ... softDeleteExperiencesByProject ... }` of the
handler. -/
def forgetByProject (now : Nat) (project : Option String) (db : MemoryDB) :
    MemoryDB × Nat :=
  match project with
  | some q => if q == "" then (db, 0)
      else softDeleteExperiencesByProject db now q
  | none => (db, 0)

/-- The `forget_memory` MCP handler.  JavaScript truthiness governs both the
validation check (`if (!id && !tag && !project)`) and whether each selector
runs, so an id of 0 and empty strings count as absent.  The three soft
deletes run sequentially on the successively updated state; `none` is the
validation-error reply (no state change), `some n` the reported total. -/
def forgetMemory (db : MemoryDB) (now : Nat) (id : Option Nat)
    (tag project : Option String) : MemoryDB × Option Nat :=
  let idGiven : Bool := match id with | some v => !(v == 0) | none => false
  let tagGiven : Bool := match tag with | some t => !(t == "") | none => false
  let projGiven : Bool :=
    match project with | some q => !(q == "") | none => false
  if !idGiven && !tagGiven && !projGiven then (db, none)
  else
    let s1 := forgetById now id db
    let s2 := forgetByTag now tag s1.1
    let s3 := forgetByProject now project s2.1
    (s3.1, some (s1.2 + s2.2 + s3.2))

/-- The number of active (not soft-deleted) rows. -/
def activeCount (db : MemoryDB) : Nat :=
  (db.experiences.filter fun r => r.deleted_at.isNone).length

/-! ## Preference store -/

/-- One row of the `preferences` table; `confidence` is a SQLite `REAL`
modelled as an exact rational. -/
structure PrefRow where
  key : String
  value : String
  confidence : ℚ
  source : String
  scope : String
  updated_at : Nat
  confirmed_count : Nat
  last_confirmed_at : Option Nat
deriving DecidableEq

/-- `upsertPreference`: `INSERT ... ON CONFLICT(key, scope) DO UPDATE SET
value = @value, confidence = MIN(1.0, 0.3 + confirmed_count * 0.1),
source = @source, updated_at = now, confirmed_count = confirmed_count + 1,
last_confirmed_at = now`.  The conflict-target update reads the
pre-increment `confirmed_count`. -/
def upsertPreference (prefs : List PrefRow) (now : Nat)
    (key value : String) (confidence : ℚ) (source scope : String) :
    List PrefRow :=
  if prefs.any (fun r => r.key == key && r.scope == scope) then
    prefs.map fun r =>
      if r.key == key && r.scope == scope then
        { r with value := value, source := source,
                 confidence := min 1 (3 / 10 + (r.confirmed_count : ℚ) * (1 / 10)),
                 updated_at := now, confirmed_count := r.confirmed_count + 1,
                 last_confirmed_at := some now }
      else r
  else
    prefs ++ [{ key := key, value := value, confidence := confidence,
                source := source, scope := scope, updated_at := now,
                confirmed_count := 1, last_confirmed_at := some now }]

/-- The `learn_preference` handler calls `upsertPreference` with a base
confidence of 0.3; an `affirm` of `(key, scope)` is that call. -/
def affirm (prefs : List PrefRow) (now : Nat) (key value source scope : String) :
    List PrefRow :=
  upsertPreference prefs now key value (3 / 10) source scope

/-- `getPreference`: the row stored for `(key, scope)`. -/
def getPreference (prefs : List PrefRow) (key scope : String) : Option PrefRow :=
  prefs.find? fun r => r.key == key && r.scope == scope

/-- JavaScript `Math.round`: round half towards positive infinity. -/
def jsRound (x : ℚ) : ℤ := ⌊x + 1 / 2⌋

/-- `computeDecayFactor` from `database.ts`: a staircase over the days
elapsed between the stored `last_confirmed_at` and `Date.now()`, both in
milliseconds; a missing timestamp decays maximally. -/
def computeDecayFactor (nowMs : ℚ) (lastConfirmedAtMs : Option ℚ) : ℚ :=
  match lastConfirmedAtMs with
  | none => 1 / 2
  | some confirmed =>
    let daysSince := (nowMs - confirmed) / (1000 * 60 * 60 * 24)
    if daysSince ≤ 30 then 1
    else if daysSince ≤ 90 then 9 / 10
    else if daysSince ≤ 180 then 7 / 10
    else 1 / 2

/-- The value `applyDecay` attaches to a preference at read time. -/
structure DecayedPref where
  pref : PrefRow
  effective_confidence : ℚ
  decay_factor : ℚ
deriving DecidableEq

/-- Seconds-based stored timestamps converted to the milliseconds
`new Date(...).getTime()` yields. -/
def toMs (t : Nat) : ℚ := 1000 * (t : ℚ)

/-- `applyDecay`: spread the stored row and add
`effective_confidence = Math.round(confidence * decay * 100) / 100` and the
decay factor; the stored row is not modified. -/
def applyDecay (nowMs : ℚ) (pref : PrefRow) : DecayedPref :=
  let decay := computeDecayFactor nowMs (pref.last_confirmed_at.map toMs)
  { pref := pref
    effective_confidence := (jsRound (pref.confidence * decay * 100) : ℚ) / 100
    decay_factor := decay }

/-! ## Reachable states and the store invariant -/

/-- States of the experiences store reachable by the mutating operations the
server performs on the `experiences` table, starting from a fresh database. -/
inductive Reachable : MemoryDB → Prop
  | empty : Reachable emptyDB
  | record {db} (now : Nat) (p : RecordParams) :
      Reachable db → Reachable (insertOrDeduplicate db now p).1
  | forgetId {db} (now id : Nat) :
      Reachable db → Reachable (softDeleteExperienceById db now id).1
  | forgetTag {db} (now : Nat) (tag : String) :
      Reachable db → Reachable (softDeleteExperiencesByTag db now tag).1
  | forgetProject {db} (now : Nat) (project : String) :
      Reachable db → Reachable (softDeleteExperiencesByProject db now project).1
  | prune {db} (now days only_failures : Nat) :
      Reachable db → Reachable (pruneOldExperiences db now days only_failures).1

/-- Structural invariant of the store: ids are below the AUTOINCREMENT
counter and pairwise distinct, no stored topic key is the empty string, and
the FTS index holds exactly one entry per `experiences` row (active or not)
carrying that row's indexed columns. -/
def Inv (db : MemoryDB) : Prop :=
  (∀ r ∈ db.experiences, r.id < db.nextId) ∧
    db.experiences.Pairwise (fun a b => a.id ≠ b.id) ∧
    (∀ r ∈ db.experiences, r.topic_key ≠ some "") ∧
    ∀ k, db.fts k = (db.experiences.find? fun r => r.id == k).map ftsEntryOf

/-- The full-text-index invariant that the spec asserts: an entry exactly
for each active (non-soft-deleted) row.  (The code maintains the index for
all rows instead; see the C4 counterexample.) -/
def FtsMirrorsActive (db : MemoryDB) : Prop :=
  ∀ k, db.fts k =
    ((db.experiences.filter fun r => r.deleted_at.isNone).find?
      fun r => r.id == k).map ftsEntryOf

/-! ## Derived notions used by the claims -/

/-- The search score evaluated on a compact result row (every input of the
ORDER BY expression survives the compact projection). -/
def compactScore (bm25 : Nat → ℚ) (now : Nat) (x : CompactRow) : ℚ :=
  bm25 x.id * (-1) * (1 / 2) + recencyScore now x.created_at * (3 / 10) +
    successScore x.success * (1 / 5)

/-- The project-bonus search score on a compact result row. -/
def compactScoreByProject (bm25 : Nat → ℚ) (now : Nat) (project : String)
    (x : CompactRow) : ℚ :=
  compactScore bm25 now x + (if x.project = project then 1 / 10 else 0)

/-- How many active rows the id selector of `forget_memory` matches on its
own against a given state. -/
def matchedById (db : MemoryDB) (i : Nat) : Nat :=
  (db.experiences.filter fun r => r.id == i && r.deleted_at.isNone).length

/-- How many active rows the tag selector matches on its own. -/
def matchedByTag (db : MemoryDB) (t : String) : Nat :=
  (db.experiences.filter fun r =>
    likeContains r.tags t && r.deleted_at.isNone).length

/-- How many active rows the project selector matches on its own. -/
def matchedByProject (db : MemoryDB) (q : String) : Nat :=
  (db.experiences.filter fun r => r.project == q && r.deleted_at.isNone).length

/-- `n` successive `learn_preference` affirmations of the same
`(key, scope)` with the same value and source, at caller-chosen times. -/
def affirmN (prefs : List PrefRow) (key value source scope : String)
    (times : Nat → Nat) : Nat → List PrefRow
  | 0 => prefs
  | n + 1 =>
    affirm (affirmN prefs key value source scope times n) (times n)
      key value source scope

/-! ## Concrete instances -/

def pNoTopic : RecordParams :=
  ⟨"experience", "ctx one", "act one", "res one", 1, "", "", none⟩

def pTopic : RecordParams :=
  ⟨"experience", "ctx one", "act one", "res one", 1, "", "", some "k"⟩

def pCase1 : RecordParams :=
  ⟨"experience", "Hello World", "Do X", "OK", 1, "", "", none⟩

def pCase2 : RecordParams :=
  ⟨"experience", "hello   world", "do x", "ok", 1, "", "", none⟩

def pTagged : RecordParams :=
  ⟨"experience", "tagged ctx", "act", "res", 1, "x", "p", none⟩

def pAlpha : RecordParams :=
  ⟨"experience", "alpha ctx", "act a", "res a", 1, "", "", none⟩

def pBeta : RecordParams :=
  ⟨"experience", "beta ctx", "act b", "res b", 1, "", "", none⟩

/-- One untopiced experience recorded at time 0. -/
def dbOne : MemoryDB := (insertOrDeduplicate emptyDB 0 pNoTopic).1

/-- One topic-keyed experience recorded at time 0. -/
def dbTopic : MemoryDB := (insertOrDeduplicate emptyDB 0 pTopic).1

/-- The stored topic-keyed row of `dbTopic`. -/
def rowTopic : ExpRow :=
  newRowOf emptyDB 0 pTopic
    (computeHash pTopic.context pTopic.action pTopic.result)

/-- A recorded experience that was then soft-deleted. -/
def dbDeleted : MemoryDB := (softDeleteExperienceById dbOne 10 1).1

/-- One active row tagged "x" in project "p". -/
def dbTagged : MemoryDB := (insertOrDeduplicate emptyDB 0 pTagged).1

/-- Two experiences 500 seconds apart, the first (the timeline anchor)
soft-deleted afterwards. -/
def dbTimeline : MemoryDB :=
  (softDeleteExperienceById
    (insertOrDeduplicate (insertOrDeduplicate emptyDB 1000 pAlpha).1
      1500 pBeta).1 2000 1).1

/-- The second (active) row of `dbTimeline`. -/
def rowBeta : ExpRow :=
  newRowOf (insertOrDeduplicate emptyDB 1000 pAlpha).1 1500 pBeta
    (computeHash pBeta.context pBeta.action pBeta.result)

/-- Two experiences one day apart, for the search-ordering counterexample. -/
def dbSearch : MemoryDB :=
  (insertOrDeduplicate (insertOrDeduplicate emptyDB 0 pAlpha).1 86400 pBeta).1

/-- The first (older) row of `dbSearch`. -/
def searchRow1 : ExpRow :=
  newRowOf emptyDB 0 pAlpha
    (computeHash pAlpha.context pAlpha.action pAlpha.result)

/-- The second (newer) row of `dbSearch`. -/
def searchRow2 : ExpRow :=
  newRowOf (insertOrDeduplicate emptyDB 0 pAlpha).1 86400 pBeta
    (computeHash pBeta.context pBeta.action pBeta.result)

/-- A relevance oracle making the two `dbSearch` rows score equally. -/
def bm25Tie : Nat → ℚ := fun k => if k = 1 then -1 else -(9 / 10)

/-- A sample stored preference row. -/
def prefSample : PrefRow :=
  ⟨"language", "english", 3 / 10, "user", "global", 0, 1, some 0⟩

/-! ## Invariant preservation -/

theorem truthyTopic_ne_empty (o : Option String) : truthyTopic o ≠ some "" := by
  cases o with
  | none => simp [truthyTopic]
  | some tk =>
    by_cases h : tk = "" <;> simp [truthyTopic, h]

theorem find?_map_of_id_eq (g : ExpRow → ExpRow) (hg : ∀ r, (g r).id = r.id)
    (l : List ExpRow) (k : Nat) :
    (l.map g).find? (fun r => r.id == k) =
      (l.find? (fun r => r.id == k)).map g := by
  induction l with
  | nil => rfl
  | cons a t ih =>
    simp only [List.map_cons]
    by_cases h : a.id = k
    · rw [List.find?_cons_of_pos _ (by simpa [hg] using h),
        List.find?_cons_of_pos _ (by simpa using h)]
      rfl
    · rw [List.find?_cons_of_neg _ (by simpa [hg] using h),
        List.find?_cons_of_neg _ (by simpa using h), ih]

theorem foldl_ftsInsert_eval (e : ExpRow → FtsEntry) (u : List ExpRow)
    (hu : u.Pairwise fun a b => a.id ≠ b.id) (fts : Nat → Option FtsEntry)
    (k : Nat) :
    (u.foldl (fun acc r => ftsInsert acc r.id (e r)) fts) k =
      match u.find? (fun r => r.id == k) with
      | some r => some (e r)
      | none => fts k := by
  induction u generalizing fts with
  | nil => rfl
  | cons r us ih =>
    have hr : ∀ b ∈ us, r.id ≠ b.id := (List.pairwise_cons.mp hu).1
    have hus := (List.pairwise_cons.mp hu).2
    simp only [List.foldl_cons]
    rw [ih hus]
    cases hfind : us.find? (fun x => x.id == k) with
    | some r' =>
      have hr'k : r'.id = k := by
        simpa using List.find?_some hfind
      have hrk : ¬ (r.id = k) := fun hrk => by
        exact hr r' (List.mem_of_find?_eq_some hfind) (hrk.trans hr'k.symm)
      rw [List.find?_cons_of_neg _ (by simpa using hrk), hfind]
    | none =>
      by_cases hrk : r.id = k
      · rw [List.find?_cons_of_pos _ (by simpa using hrk)]
        show ftsInsert fts r.id (e r) k = some (e r)
        simp [ftsInsert, hrk.symm]
      · rw [List.find?_cons_of_neg _ (by simpa using hrk), hfind]
        show ftsInsert fts r.id (e r) k = fts k
        have hkr : ¬ (k = r.id) := fun h => hrk h.symm
        simp [ftsInsert, hkr]

theorem find?_filter_of_unique (p : ExpRow → Bool) (l : List ExpRow) (k : Nat)
    (hu : l.Pairwise fun a b => a.id ≠ b.id) :
    (l.filter p).find? (fun r => r.id == k) =
      match l.find? (fun r => r.id == k) with
      | some r => if p r then some r else none
      | none => none := by
  induction l with
  | nil => rfl
  | cons a t ih =>
    have ha : ∀ b ∈ t, a.id ≠ b.id := (List.pairwise_cons.mp hu).1
    have ht := (List.pairwise_cons.mp hu).2
    by_cases hk : a.id = k
    · rw [List.find?_cons_of_pos _ (by simpa using hk)]
      show (List.filter p (a :: t)).find? (fun r => r.id == k) =
        if p a then some a else none
      by_cases hpa : p a
      · simp only [List.filter_cons, if_pos hpa]
        rw [List.find?_cons_of_pos _ (by simpa using hk)]
      · simp only [List.filter_cons, if_neg hpa]
        have hnone : (t.filter p).find? (fun r => r.id == k) = none := by
          rw [List.find?_eq_none]
          intro x hx
          have hxt : x ∈ t := (List.mem_filter.mp hx).1
          simpa using fun hxk => ha x hxt (hk.trans hxk.symm)
        rw [hnone]
    · rw [List.find?_cons_of_neg _ (by simpa using hk)]
      by_cases hpa : p a
      · simp only [List.filter_cons, if_pos hpa]
        rw [List.find?_cons_of_neg _ (by simpa using hk)]
        exact ih ht
      · simp only [List.filter_cons, if_neg hpa]
        exact ih ht

theorem applyRowUpdate_inv (p : ExpRow → Bool) (f : ExpRow → ExpRow)
    (hid : ∀ r, (f r).id = r.id)
    (htopic : ∀ r, (f r).topic_key = r.topic_key)
    (db : MemoryDB) (h : Inv db) : Inv (applyRowUpdate p f db).1 := by
  obtain ⟨hfresh, huniq, htk, hfts⟩ := h
  have hgid : ∀ r : ExpRow, (if p r then f r else r).id = r.id := by
    intro r; split <;> simp [hid]
  refine ⟨?_, ?_, ?_, ?_⟩
  · intro r hr
    obtain ⟨s, hs, rfl⟩ := List.mem_map.mp hr
    rw [hgid]
    exact hfresh s hs
  · refine List.pairwise_map.mpr ?_
    refine huniq.imp_of_mem ?_
    intro a b _ _ hab
    simpa [hgid] using hab
  · intro r hr
    obtain ⟨s, hs, rfl⟩ := List.mem_map.mp hr
    have : (if p s then f s else s).topic_key = s.topic_key := by
      split <;> simp [htopic]
    rw [this]
    exact htk s hs
  · intro k
    show ((db.experiences.filter p).foldl
        (fun acc r => ftsInsert acc r.id (ftsEntryOf (f r))) db.fts) k =
      ((db.experiences.map fun r => if p r then f r else r).find?
        (fun r => r.id == k)).map ftsEntryOf
    rw [foldl_ftsInsert_eval _ _ (huniq.sublist (List.filter_sublist _)),
      find?_filter_of_unique p _ k huniq,
      find?_map_of_id_eq _ hgid]
    cases hfind : db.experiences.find? (fun r => r.id == k) with
    | none => simp [hfts, hfind]
    | some r =>
      by_cases hpr : p r
      · simp [hpr]
      · have hk : db.fts k = some (ftsEntryOf r) := by rw [hfts k, hfind]; rfl
        simp [hpr, hk]

theorem emptyDB_inv : Inv emptyDB := by
  refine ⟨?_, ?_, ?_, ?_⟩ <;> simp [emptyDB, Inv]

theorem insertNewRow_inv (db : MemoryDB) (now : Nat) (p : RecordParams)
    (hash : String) (h : Inv db) : Inv (insertNewRow db now p hash) := by
  obtain ⟨hfresh, huniq, htk, hfts⟩ := h
  refine ⟨?_, ?_, ?_, ?_⟩
  · intro r hr
    rcases List.mem_append.mp hr with hl | hnew
    · exact Nat.lt_succ_of_lt (hfresh r hl)
    · simp only [List.mem_singleton] at hnew
      subst hnew
      exact Nat.lt_succ_self _
  · rw [show (insertNewRow db now p hash).experiences =
        db.experiences ++ [newRowOf db now p hash] from rfl,
      List.pairwise_append]
    refine ⟨huniq, List.pairwise_singleton _ _, ?_⟩
    intro a ha b hb
    simp only [List.mem_singleton] at hb
    subst hb
    exact Nat.ne_of_lt (hfresh a ha)
  · intro r hr
    rcases List.mem_append.mp hr with hl | hnew
    · exact htk r hl
    · simp only [List.mem_singleton] at hnew
      subst hnew
      exact truthyTopic_ne_empty p.topic_key
  · intro k
    show ftsInsert db.fts db.nextId (ftsEntryOf (newRowOf db now p hash)) k =
      ((db.experiences ++ [newRowOf db now p hash]).find?
        (fun r => r.id == k)).map ftsEntryOf
    rw [List.find?_append]
    by_cases hk : k = db.nextId
    · subst hk
      have hnone : db.experiences.find? (fun r => r.id == db.nextId) = none := by
        rw [List.find?_eq_none]
        intro x hx
        simpa using Nat.ne_of_lt (hfresh x hx)
      rw [hnone]
      simp [ftsInsert, newRowOf]
    · have hrow : ([newRowOf db now p hash].find? (fun r => r.id == k)) =
          none := by
        rw [List.find?_eq_none]
        intro x hx
        simp only [List.mem_singleton] at hx
        subst hx
        simpa [newRowOf] using fun h => hk h.symm
      rw [hrow]
      simp only [Option.or_none]
      simp only [ftsInsert, if_neg hk]
      exact hfts k

theorem dedupOrInsert_inv (db : MemoryDB) (now : Nat) (p : RecordParams)
    (hash : String) (h : Inv db) : Inv (dedupOrInsert db now p hash).1 := by
  unfold dedupOrInsert
  cases findDuplicate db hash p.project now with
  | some dup =>
    show Inv (incrementDuplicate db dup.id now).1
    unfold incrementDuplicate
    apply applyRowUpdate_inv
    · exact fun r => rfl
    · exact fun r => rfl
    · exact h
  | none =>
    show Inv (insertNewRow db now p hash)
    exact insertNewRow_inv db now p hash h

theorem insertOrDeduplicate_inv (db : MemoryDB) (now : Nat) (p : RecordParams)
    (h : Inv db) : Inv (insertOrDeduplicate db now p).1 := by
  unfold insertOrDeduplicate
  split
  · split
    · unfold updateByTopicKey
      apply applyRowUpdate_inv
      · exact fun r => rfl
      · exact fun r => rfl
      · exact h
    · exact dedupOrInsert_inv db now p _ h
  · exact dedupOrInsert_inv db now p _ h

theorem reachable_inv {db : MemoryDB} (h : Reachable db) : Inv db := by
  induction h with
  | empty => exact emptyDB_inv
  | record now p _ ih => exact insertOrDeduplicate_inv _ now p ih
  | forgetId now id _ ih =>
    unfold softDeleteExperienceById
    apply applyRowUpdate_inv
    · exact fun r => rfl
    · exact fun r => rfl
    · exact ih
  | forgetTag now tag _ ih =>
    unfold softDeleteExperiencesByTag
    apply applyRowUpdate_inv
    · exact fun r => rfl
    · exact fun r => rfl
    · exact ih
  | forgetProject now project _ ih =>
    unfold softDeleteExperiencesByProject
    apply applyRowUpdate_inv
    · exact fun r => rfl
    · exact fun r => rfl
    · exact ih
  | prune now days only_failures _ ih =>
    unfold pruneOldExperiences
    apply applyRowUpdate_inv
    · exact fun r => rfl
    · exact fun r => rfl
    · exact ih

/-! ## Fingerprint lemmas -/

theorem collapseWsAux_append_bar (b : Bool) (xs ys : List Char) :
    collapseWsAux b (xs ++ '|' :: ys) =
      collapseWsAux b xs ++ '|' :: collapseWsAux false ys := by
  induction xs generalizing b with
  | nil => simp [collapseWsAux]
  | cons c cs ih =>
    by_cases hw : c.isWhitespace
    · cases b with
      | true => simp [collapseWsAux, hw, ih]
      | false => simp [collapseWsAux, hw, ih]
    · simp [collapseWsAux, hw, ih]

theorem computeHash_eq_of_canon {c a r c' a' r' : String}
    (hc : canonText c = canonText c') (ha : canonText a = canonText a')
    (hr : canonText r = canonText r') :
    computeHash c a r = computeHash c' a' r' := by
  have key : ∀ x y z : String,
      (((x ++ "|" ++ y ++ "|" ++ z).toList.map Char.toLower)) =
        x.toList.map Char.toLower ++ '|' ::
          (y.toList.map Char.toLower ++ '|' :: z.toList.map Char.toLower) := by
    intro x y z
    simp [String.toList, String.data_append]
  unfold computeHash normalizeText collapseWs
  rw [key, key, collapseWsAux_append_bar,
    collapseWsAux_append_bar, collapseWsAux_append_bar,
    collapseWsAux_append_bar]
  show (trimChars (canonText c ++ '|' :: (canonText a ++ '|' :: canonText r))).asString =
    (trimChars (canonText c' ++ '|' :: (canonText a' ++ '|' :: canonText r'))).asString
  rw [hc, ha, hr]

/-! ## Deduplication lemmas -/

theorem dedupOrInsert_created (db : MemoryDB) (now : Nat) (p : RecordParams)
    (hash : String) (db' : MemoryDB) (i : Nat)
    (h : dedupOrInsert db now p hash = (db', i, .created)) :
    db' = insertNewRow db now p hash ∧ i = db.nextId ∧
      findDuplicate db hash p.project now = none := by
  unfold dedupOrInsert at h
  split at h
  · simp at h
  · rename_i hfind
    simp only [Prod.mk.injEq] at h
    exact ⟨h.1.symm, h.2.1.symm, hfind⟩

theorem insertOrDeduplicate_created (db : MemoryDB) (now : Nat)
    (p : RecordParams) (db' : MemoryDB) (i : Nat)
    (h : insertOrDeduplicate db now p = (db', i, .created)) :
    db' = insertNewRow db now p (computeHash p.context p.action p.result) ∧
      i = db.nextId ∧
      findDuplicate db (computeHash p.context p.action p.result)
        p.project now = none := by
  unfold insertOrDeduplicate at h
  split at h
  · split at h
    · simp at h
    · exact dedupOrInsert_created _ _ _ _ _ _ h
  · exact dedupOrInsert_created _ _ _ _ _ _ h

theorem insertOrDeduplicate_of_topicMiss (db : MemoryDB) (now : Nat)
    (p : RecordParams)
    (h : ∀ tk, truthyTopic p.topic_key = some tk →
      findByTopicKey db tk p.project = none) :
    insertOrDeduplicate db now p =
      dedupOrInsert db now p (computeHash p.context p.action p.result) := by
  unfold insertOrDeduplicate
  split
  · rename_i tk htc
    rw [h tk htc]
  · rfl

theorem dedupOrInsert_of_found (db : MemoryDB) (now : Nat) (p : RecordParams)
    (hash : String) (dup : ExpRow)
    (h : findDuplicate db hash p.project now = some dup) :
    dedupOrInsert db now p hash =
      ((incrementDuplicate db dup.id now).1, dup.id, .deduplicated) := by
  unfold dedupOrInsert
  rw [h]

theorem dedup_second_call (db db1 : MemoryDB) (t1 t2 i : Nat)
    (p1 p2 : RecordParams)
    (hfresh : ∀ r ∈ db.experiences, r.id < db.nextId)
    (h1 : insertOrDeduplicate db t1 p1 = (db1, i, .created))
    (hhash : computeHash p2.context p2.action p2.result =
      computeHash p1.context p1.action p1.result)
    (hproj : p2.project = p1.project)
    (ht12 : t1 ≤ t2) (hwin : t2 ≤ t1 + dedupWindow)
    (htopic : ∀ tk, truthyTopic p2.topic_key = some tk →
      findByTopicKey db1 tk p2.project = none) :
    insertOrDeduplicate db1 t2 p2 =
      ((incrementDuplicate db1 i t2).1, i, .deduplicated) ∧
    (insertOrDeduplicate db1 t2 p2).1.experiences.length =
      db1.experiences.length ∧
    ∃ r1, db1.experiences.find? (fun r => r.id == i) = some r1 ∧
      r1.duplicate_count = 1 ∧
      (insertOrDeduplicate db1 t2 p2).1.experiences.find?
          (fun r => r.id == i) =
        some { r1 with duplicate_count := r1.duplicate_count + 1,
                       last_seen_at := some t2 } := by
  obtain ⟨hdb1, hi, hnodup⟩ := insertOrDeduplicate_created db t1 p1 db1 i h1
  subst hdb1
  subst hi
  have hnodup' := List.find?_eq_none.mp hnodup
  have hfind2 : findDuplicate (insertNewRow db t1 p1
        (computeHash p1.context p1.action p1.result))
      (computeHash p2.context p2.action p2.result) p2.project t2 =
      some (newRowOf db t1 p1 (computeHash p1.context p1.action p1.result)) := by
    unfold findDuplicate insertNewRow
    rw [List.find?_append]
    have hold : db.experiences.find? (fun r =>
        r.normalized_hash == computeHash p2.context p2.action p2.result &&
        r.project == p2.project && r.deleted_at.isNone &&
        decide (t2 ≤ r.created_at + dedupWindow)) = none := by
      rw [List.find?_eq_none]
      intro r hr hcontra
      apply hnodup' r hr
      simp only [Bool.and_eq_true, beq_iff_eq, Option.isNone_iff_eq_none,
        decide_eq_true_eq] at hcontra ⊢
      obtain ⟨⟨⟨hh, hp⟩, hd⟩, hw⟩ := hcontra
      exact ⟨⟨⟨hh.trans hhash, hp.trans hproj⟩, hd⟩, le_trans ht12 hw⟩
    rw [hold]
    simp only [Option.none_or]
    rw [List.find?_cons_of_pos]
    simp [newRowOf, hhash, hproj, hwin]
  have hmain : insertOrDeduplicate (insertNewRow db t1 p1
        (computeHash p1.context p1.action p1.result)) t2 p2 =
      ((incrementDuplicate (insertNewRow db t1 p1
          (computeHash p1.context p1.action p1.result)) db.nextId t2).1,
        db.nextId, .deduplicated) := by
    rw [insertOrDeduplicate_of_topicMiss _ _ _ htopic,
      dedupOrInsert_of_found _ _ _ _ _ hfind2]
    rfl
  refine ⟨hmain, ?_, ?_⟩
  · rw [hmain]
    show ((insertNewRow db t1 p1 _).experiences.map _).length = _
    rw [List.length_map]
  · have hfind1 : (insertNewRow db t1 p1
        (computeHash p1.context p1.action p1.result)).experiences.find?
          (fun r => r.id == db.nextId) =
        some (newRowOf db t1 p1
          (computeHash p1.context p1.action p1.result)) := by
      unfold insertNewRow
      rw [List.find?_append]
      have hold : db.experiences.find? (fun r => r.id == db.nextId) = none := by
        rw [List.find?_eq_none]
        intro x hx
        simpa using Nat.ne_of_lt (hfresh x hx)
      rw [hold]
      simp only [Option.none_or]
      rw [List.find?_cons_of_pos]
      simp [newRowOf]
    refine ⟨newRowOf db t1 p1 (computeHash p1.context p1.action p1.result),
      hfind1, rfl, ?_⟩
    rw [hmain]
    show ((insertNewRow db t1 p1 _).experiences.map fun r =>
        if r.id == db.nextId then _ else r).find? (fun r => r.id == db.nextId) =
      _
    rw [find?_map_of_id_eq _ (by intro r; split <;> rfl), hfind1]
    simp [newRowOf]

/-! ## Topic-upsert lemmas -/

theorem find?_id_of_mem_unique (l : List ExpRow) (r : ExpRow)
    (huniq : l.Pairwise fun a b => a.id ≠ b.id) (hmem : r ∈ l) :
    l.find? (fun x => x.id == r.id) = some r := by
  induction l with
  | nil => cases hmem
  | cons a t ih =>
    have ha : ∀ b ∈ t, a.id ≠ b.id := (List.pairwise_cons.mp huniq).1
    have ht := (List.pairwise_cons.mp huniq).2
    rcases List.mem_cons.mp hmem with rfl | hmt
    · rw [List.find?_cons_of_pos _ (by simp)]
    · rw [List.find?_cons_of_neg _ (by simpa using ha r hmt)]
      exact ih ht hmt

theorem insertOrDeduplicate_of_topicHit (db : MemoryDB) (now : Nat)
    (p : RecordParams) (tk : String) (r : ExpRow)
    (htc : truthyTopic p.topic_key = some tk)
    (hfound : findByTopicKey db tk p.project = some r) :
    insertOrDeduplicate db now p =
      ((updateByTopicKey db r.id now p.context p.action p.result p.success
        p.tags (computeHash p.context p.action p.result)).1,
       r.id, .upserted) := by
  unfold insertOrDeduplicate
  split
  · rename_i tk' htc'
    have h : tk' = tk := by
      rw [htc] at htc'
      exact (Option.some_inj.mp htc').symm
    subst h
    rw [hfound]
  · rename_i htc'
    exact absurd (htc'.symm.trans htc) (by simp)

/-! ## Preference-store lemmas -/

theorem find?_map_of_key_scope_eq (g : PrefRow → PrefRow)
    (hg : ∀ r, (g r).key = r.key ∧ (g r).scope = r.scope)
    (l : List PrefRow) (key scope : String) :
    (l.map g).find? (fun r => r.key == key && r.scope == scope) =
      (l.find? (fun r => r.key == key && r.scope == scope)).map g := by
  induction l with
  | nil => rfl
  | cons a t ih =>
    simp only [List.map_cons]
    by_cases h : (a.key == key && a.scope == scope) = true
    · rw [List.find?_cons_of_pos _ (by
          show ((g a).key == key && (g a).scope == scope) = true
          rw [(hg a).1, (hg a).2]
          exact h),
        List.find?_cons_of_pos _ (by exact h)]
      rfl
    · rw [List.find?_cons_of_neg _ (by
          show ¬ ((g a).key == key && (g a).scope == scope) = true
          rw [(hg a).1, (hg a).2]
          exact h),
        List.find?_cons_of_neg _ (by exact h), ih]

theorem getPreference_upsert (prefs : List PrefRow) (now : Nat)
    (key value : String) (confidence : ℚ) (source scope : String) :
    getPreference (upsertPreference prefs now key value confidence source scope)
        key scope =
      match getPreference prefs key scope with
      | some r =>
        some { r with value := value, source := source,
                      confidence := min 1 (3 / 10 +
                        (r.confirmed_count : ℚ) * (1 / 10)),
                      updated_at := now,
                      confirmed_count := r.confirmed_count + 1,
                      last_confirmed_at := some now }
      | none =>
        some { key := key, value := value, confidence := confidence,
               source := source, scope := scope, updated_at := now,
               confirmed_count := 1, last_confirmed_at := some now } := by
  unfold upsertPreference getPreference
  by_cases hany : prefs.any (fun r => r.key == key && r.scope == scope) = true
  · rw [if_pos hany, find?_map_of_key_scope_eq]
    · cases hf : prefs.find? (fun r => r.key == key && r.scope == scope) with
      | none =>
        exfalso
        obtain ⟨x, hx, hpx⟩ := List.any_eq_true.mp hany
        exact (List.find?_eq_none.mp hf x hx) hpx
      | some r =>
        obtain ⟨hk, hs⟩ : r.key = key ∧ r.scope = scope := by
          simpa using List.find?_some hf
        simp [hk, hs]
    · intro r
      constructor <;> (split <;> rfl)
  · rw [if_neg hany, List.find?_append]
    have hnone : prefs.find? (fun r => r.key == key && r.scope == scope) =
        none := by
      rw [List.find?_eq_none]
      intro x hx hpx
      exact hany (List.any_eq_true.mpr ⟨x, hx, hpx⟩)
    rw [hnone]
    simp

/-! ## Soft-delete counting lemmas -/

theorem list_softDelete_activeCount (q : ExpRow → Bool) (now : Nat)
    (l : List ExpRow) :
    ((l.map fun r => if q r && r.deleted_at.isNone then
        { r with deleted_at := some now } else r).filter
      fun r => r.deleted_at.isNone).length +
      (l.filter fun r => q r && r.deleted_at.isNone).length =
    (l.filter fun r => r.deleted_at.isNone).length := by
  induction l with
  | nil => rfl
  | cons a t ih =>
    cases hqa : q a <;> cases hda : a.deleted_at <;>
      simp [List.filter_cons, hqa, hda] at ih ⊢ <;> omega

theorem forgetById_activeCount (now : Nat) (id : Option Nat) (db : MemoryDB) :
    activeCount (forgetById now id db).1 + (forgetById now id db).2 =
      activeCount db := by
  unfold forgetById
  cases id with
  | none => simp
  | some v =>
    by_cases hv : (v == 0) = true
    · simp [hv]
    · simp only [hv, Bool.false_eq_true, if_false]
      exact list_softDelete_activeCount (fun r => r.id == v) now db.experiences

theorem forgetByTag_activeCount (now : Nat) (tag : Option String)
    (db : MemoryDB) :
    activeCount (forgetByTag now tag db).1 + (forgetByTag now tag db).2 =
      activeCount db := by
  unfold forgetByTag
  cases tag with
  | none => simp
  | some t =>
    by_cases ht : (t == "") = true
    · simp [ht]
    · simp only [ht, Bool.false_eq_true, if_false]
      exact list_softDelete_activeCount (fun r => likeContains r.tags t) now
        db.experiences

theorem forgetByProject_activeCount (now : Nat) (project : Option String)
    (db : MemoryDB) :
    activeCount (forgetByProject now project db).1 +
        (forgetByProject now project db).2 =
      activeCount db := by
  unfold forgetByProject
  cases project with
  | none => simp
  | some q =>
    by_cases hq : (q == "") = true
    · simp [hq]
    · simp only [hq, Bool.false_eq_true, if_false]
      exact list_softDelete_activeCount (fun r => r.project == q) now
        db.experiences

/-! ## Search lemmas -/

theorem compactScore_compactOf (bm25 : Nat → ℚ) (now : Nat) (r : ExpRow) :
    compactScore bm25 now (compactOf r) = searchScore bm25 now r := rfl

theorem compactScoreByProject_compactOf (bm25 : Nat → ℚ) (now : Nat)
    (project : String) (r : ExpRow) :
    compactScoreByProject bm25 now project (compactOf r) =
      searchScoreByProject bm25 now project r := rfl

/-! ## Claim C1 -/

/-- Claim C1 (amended): when a `record` call creates an active row, and a
second `record` call within 15 minutes carries an equal fingerprint and
equal project and does not trigger a topic upsert (it supplies no truthy
`topic_key` matching an active row), the second call returns outcome
`deduplicated` with the first row's id, increments that row's
`duplicate_count` by exactly 1, refreshes its `last_seen_at`, and creates no
new row. -/
theorem second_record_deduplicates (db db1 db2 : MemoryDB) (t1 t2 i j : Nat)
    (p1 p2 : RecordParams) (o : RecordOutcome)
    (hreach : Reachable db)
    (h1 : insertOrDeduplicate db t1 p1 = (db1, i, .created))
    (hhash : computeHash p2.context p2.action p2.result =
      computeHash p1.context p1.action p1.result)
    (hproj : p2.project = p1.project)
    (ht12 : t1 ≤ t2) (hwin : t2 ≤ t1 + dedupWindow)
    (htopic : ∀ tk, truthyTopic p2.topic_key = some tk →
      findByTopicKey db1 tk p2.project = none)
    (h2 : insertOrDeduplicate db1 t2 p2 = (db2, j, o)) :
    o = .deduplicated ∧ j = i ∧
    db2.experiences.length = db1.experiences.length ∧
    db2.experiences.find? (fun x => x.id == i) =
      (db1.experiences.find? (fun x => x.id == i)).map
        (fun r1 => { r1 with duplicate_count := r1.duplicate_count + 1,
                             last_seen_at := some t2 }) := by
  have hfresh := (reachable_inv hreach).1
  obtain ⟨hmain, hlen, r1, hf1, hdc, hf2⟩ :=
    dedup_second_call db db1 t1 t2 i p1 p2 hfresh h1 hhash hproj ht12 hwin
      htopic
  have hcomp := h2.symm.trans hmain
  simp only [Prod.mk.injEq] at hcomp
  obtain ⟨hdb2, hj, ho⟩ := hcomp
  refine ⟨ho, hj, ?_, ?_⟩
  · rw [hdb2]
    rw [hmain] at hlen
    exact hlen
  · rw [hdb2, hf1]
    rw [hmain] at hf2
    exact hf2

/-- Witness for C1 at a concrete input: an experience recorded at time 0 and
re-recorded identically (without topic key) at time 60 is deduplicated into
the single stored row, whose duplicate count becomes 2. -/
theorem second_record_deduplicates_witness :
    RecordOutcome.deduplicated = RecordOutcome.deduplicated ∧ (1 : Nat) = 1 ∧
    (insertOrDeduplicate dbOne 60 pNoTopic).1.experiences.length =
      dbOne.experiences.length ∧
    (insertOrDeduplicate dbOne 60 pNoTopic).1.experiences.find?
        (fun x => x.id == 1) =
      (dbOne.experiences.find? (fun x => x.id == 1)).map
        (fun r1 => { r1 with duplicate_count := r1.duplicate_count + 1,
                             last_seen_at := some 60 }) :=
  second_record_deduplicates emptyDB dbOne
    (insertOrDeduplicate dbOne 60 pNoTopic).1 0 60 1 1 pNoTopic pNoTopic
    RecordOutcome.deduplicated Reachable.empty rfl rfl rfl (by decide)
    (by decide) (fun _ h => Option.noConfusion h) rfl

/-- Counterexample to C1 as stated: two identical `record` calls 60 seconds
apart whose shared `topic_key` matches make the second call return
`upserted`, not `deduplicated`, and leave `duplicate_count` at 1, although
the first call created an active row with the same fingerprint and project
within the 15-minute window. -/
theorem second_record_topic_key_not_deduplicated :
    (insertOrDeduplicate emptyDB 0 pTopic).2.2 = RecordOutcome.created ∧
    (0 : Nat) ≤ 60 ∧ 60 ≤ 0 + dedupWindow ∧
    (insertOrDeduplicate dbTopic 60 pTopic).2.2 = RecordOutcome.upserted ∧
    RecordOutcome.upserted ≠ RecordOutcome.deduplicated ∧
    ((insertOrDeduplicate dbTopic 60 pTopic).1.experiences.find?
        (fun x => x.id == 1)).map (fun r => r.duplicate_count) = some 1 :=
  ⟨rfl, by decide, by decide, rfl, by decide, rfl⟩

/-! ## Claim C2 -/

/-- Claim C2 (confirmed): a `record` call supplying a `topic_key` for which
an active row with the same `(topic_key, project)` exists overwrites that
row's context, action, result, success, tags and fingerprint in place,
increments its `revision_count`, and returns outcome `upserted`; no
hypothesis constrains the dedup window or content similarity, and the
result equation shows the topic-upsert branch is taken before any dedup
check. -/
theorem topic_upsert_overwrites (db : MemoryDB) (now : Nat) (p : RecordParams)
    (tk : String) (r : ExpRow)
    (hreach : Reachable db)
    (htk : p.topic_key = some tk)
    (hfound : findByTopicKey db tk p.project = some r) :
    insertOrDeduplicate db now p =
      ((updateByTopicKey db r.id now p.context p.action p.result p.success
        p.tags (computeHash p.context p.action p.result)).1, r.id,
        .upserted) ∧
    (insertOrDeduplicate db now p).1.experiences.length =
      db.experiences.length ∧
    (insertOrDeduplicate db now p).1.experiences.find?
        (fun x => x.id == r.id) =
      some { r with context := p.context, action := p.action,
                    result := p.result, success := p.success, tags := p.tags,
                    normalized_hash :=
                      computeHash p.context p.action p.result,
                    revision_count := r.revision_count + 1,
                    last_seen_at := some now } := by
  obtain ⟨hfresh, huniq, hnoempty, hfts⟩ := reachable_inv hreach
  have hmem : r ∈ db.experiences := List.mem_of_find?_eq_some hfound
  have hrtk : r.topic_key = some tk := by
    have hp := List.find?_some hfound
    simp only [Bool.and_eq_true, beq_iff_eq] at hp
    exact hp.1.1
  have htkne : ¬ tk = "" := by
    intro hcontra
    exact hnoempty r hmem (by rw [hrtk, hcontra])
  have htc : truthyTopic p.topic_key = some tk := by
    rw [htk]
    simp [truthyTopic, htkne]
  have hmain := insertOrDeduplicate_of_topicHit db now p tk r htc hfound
  refine ⟨hmain, ?_, ?_⟩
  · rw [hmain]
    show (db.experiences.map fun x =>
      if x.id == r.id then
        { x with context := p.context, action := p.action,
                 result := p.result, success := p.success, tags := p.tags,
                 normalized_hash := computeHash p.context p.action p.result,
                 revision_count := x.revision_count + 1,
                 last_seen_at := some now }
      else x).length = db.experiences.length
    rw [List.length_map]
  · rw [hmain]
    show (db.experiences.map fun x =>
      if x.id == r.id then
        { x with context := p.context, action := p.action,
                 result := p.result, success := p.success, tags := p.tags,
                 normalized_hash := computeHash p.context p.action p.result,
                 revision_count := x.revision_count + 1,
                 last_seen_at := some now }
      else x).find? (fun x => x.id == r.id) = _
    rw [find?_map_of_id_eq _ (by intro x; split <;> rfl),
      find?_id_of_mem_unique db.experiences r huniq hmem]
    simp

/-- Witness for C2 at a concrete input: re-recording the stored topic-keyed
experience of `dbTopic` at time 60 upserts the existing row, bumping its
revision count to 2 and leaving a single stored row. -/
theorem topic_upsert_overwrites_witness :
    insertOrDeduplicate dbTopic 60 pTopic =
      ((updateByTopicKey dbTopic rowTopic.id 60 pTopic.context pTopic.action
        pTopic.result pTopic.success pTopic.tags
        (computeHash pTopic.context pTopic.action pTopic.result)).1,
        rowTopic.id, .upserted) ∧
    (insertOrDeduplicate dbTopic 60 pTopic).1.experiences.length =
      dbTopic.experiences.length ∧
    (insertOrDeduplicate dbTopic 60 pTopic).1.experiences.find?
        (fun x => x.id == rowTopic.id) =
      some { rowTopic with
               context := pTopic.context, action := pTopic.action,
               result := pTopic.result, success := pTopic.success,
               tags := pTopic.tags,
               normalized_hash :=
                 computeHash pTopic.context pTopic.action pTopic.result,
               revision_count := rowTopic.revision_count + 1,
               last_seen_at := some 60 } :=
  topic_upsert_overwrites dbTopic 60 pTopic "k" rowTopic
    (Reachable.record 0 pTopic Reachable.empty) rfl rfl

/-! ## Claim C3 -/

theorem affirmN_confidence (prefs0 : List PrefRow)
    (key value source scope : String) (times : Nat → Nat)
    (h0 : getPreference prefs0 key scope = none) (n : Nat) :
    (getPreference (affirmN prefs0 key value source scope times (n + 1))
        key scope).map (fun r => (r.confidence, r.confirmed_count)) =
      some (min 1 ((3 : ℚ) / 10 + (n : ℚ) * (1 / 10)), n + 1) := by
  induction n with
  | zero =>
    show (getPreference (upsertPreference prefs0 (times 0) key value
        (3 / 10) source scope) key scope).map
        (fun r => (r.confidence, r.confirmed_count)) = _
    rw [getPreference_upsert, h0]
    norm_num [min_def]
  | succ n ih =>
    cases hg : getPreference
        (affirmN prefs0 key value source scope times (n + 1)) key scope with
    | none =>
      rw [hg] at ih
      cases ih
    | some r =>
      rw [hg] at ih
      simp only [Option.map_some', Option.some.injEq, Prod.mk.injEq] at ih
      obtain ⟨hc, hcnt⟩ := ih
      show (getPreference (upsertPreference
          (affirmN prefs0 key value source scope times (n + 1)) (times (n + 1))
          key value (3 / 10) source scope) key scope).map
          (fun r => (r.confidence, r.confirmed_count)) = _
      rw [getPreference_upsert, hg]
      simp only [Option.map_some', Option.some.injEq, Prod.mk.injEq]
      constructor
      · rw [hcnt]
      · omega

/-- Claim C3 (confirmed): starting from a state with no `(key, scope)` row,
the first affirm stores confidence 0.3 with `confirmed_count` 1, and after
`n + 1` affirmations the stored row carries confidence
`min 1 (0.3 + n * 0.1)` — the 0.3, 0.4, 0.5, … sequence computed from the
pre-increment `confirmed_count` — together with `confirmed_count = n + 1`;
the sequence is nondecreasing and capped at 1.  (`REAL` is modelled as exact
rational arithmetic.) -/
theorem preference_confidence_sequence (prefs0 : List PrefRow)
    (key value source scope : String) (times : Nat → Nat) (n : Nat)
    (h0 : getPreference prefs0 key scope = none) :
    (getPreference (affirmN prefs0 key value source scope times 1)
        key scope).map (fun r => (r.confidence, r.confirmed_count)) =
      some ((3 : ℚ) / 10, 1) ∧
    (getPreference (affirmN prefs0 key value source scope times (n + 1))
        key scope).map (fun r => (r.confidence, r.confirmed_count)) =
      some (min 1 ((3 : ℚ) / 10 + (n : ℚ) * (1 / 10)), n + 1) ∧
    min 1 ((3 : ℚ) / 10 + (n : ℚ) * (1 / 10)) ≤
      min 1 ((3 : ℚ) / 10 + ((n : ℚ) + 1) * (1 / 10)) ∧
    min 1 ((3 : ℚ) / 10 + (n : ℚ) * (1 / 10)) ≤ 1 := by
  refine ⟨?_, affirmN_confidence prefs0 key value source scope times h0 n,
    ?_, min_le_left _ _⟩
  · have h := affirmN_confidence prefs0 key value source scope times h0 0
    refine h.trans ?_
    norm_num [min_def]
  · apply min_le_min le_rfl
    have hn : (0 : ℚ) ≤ (n : ℚ) := Nat.cast_nonneg n
    linarith

/-- Witness for C3 at a concrete input: nine affirmations of a fresh
preference produce confidence `min 1 (0.3 + 0.8) = 1` (the cap) with
`confirmed_count = 9`, and the first stores 0.3. -/
theorem preference_confidence_sequence_witness :
    (getPreference (affirmN [] "language" "english" "user" "global"
        (fun _ => 0) 1) "language" "global").map
        (fun r => (r.confidence, r.confirmed_count)) =
      some ((3 : ℚ) / 10, 1) ∧
    (getPreference (affirmN [] "language" "english" "user" "global"
        (fun _ => 0) (8 + 1)) "language" "global").map
        (fun r => (r.confidence, r.confirmed_count)) =
      some (min 1 ((3 : ℚ) / 10 + ((8 : Nat) : ℚ) * (1 / 10)), 8 + 1) ∧
    min 1 ((3 : ℚ) / 10 + ((8 : Nat) : ℚ) * (1 / 10)) ≤
      min 1 ((3 : ℚ) / 10 + (((8 : Nat) : ℚ) + 1) * (1 / 10)) ∧
    min 1 ((3 : ℚ) / 10 + ((8 : Nat) : ℚ) * (1 / 10)) ≤ 1 :=
  preference_confidence_sequence [] "language" "english" "user" "global"
    (fun _ => 0) 8 rfl

/-! ## Claim C4 -/

/-- Claim C4 (amended): at every reachable state the full-text index holds
an entry exactly for each `experiences` row, active or soft-deleted,
carrying that row's context/action/result/tags: an insert adds the entry, a
topic upsert replaces it, and a soft delete (an UPDATE) replaces it with
identical content, leaving it in the index.  Soft-deleted rows are excluded
from search results by the query-time `deleted_at IS NULL` filter, not by
the index. -/
theorem fts_mirrors_all_rows (db : MemoryDB) (k : Nat) (h : Reachable db) :
    db.fts k = (db.experiences.find? fun r => r.id == k).map ftsEntryOf :=
  (reachable_inv h).2.2.2 k

/-- Witness for C4 at a concrete reachable state: in `dbDeleted` (one
recorded then soft-deleted experience) the index entry of rowid 1 is the
projection of the stored soft-deleted row. -/
theorem fts_mirrors_all_rows_witness :
    dbDeleted.fts 1 =
      (dbDeleted.experiences.find? fun r => r.id == 1).map ftsEntryOf :=
  fts_mirrors_all_rows dbDeleted 1
    (Reachable.forgetId 10 1 (Reachable.record 0 pNoTopic Reachable.empty))

/-- Counterexample to C4 as stated: `dbDeleted` is reachable (one record,
then a soft delete), its only row is soft-deleted, yet the FTS index still
holds that row's entry — the `experiences_au` trigger fired by the
soft-delete UPDATE deletes and re-inserts the entry instead of removing it,
so the index does not mirror exactly the active rows. -/
theorem fts_keeps_entry_of_soft_deleted_row :
    Reachable dbDeleted ∧
    (dbDeleted.experiences.map fun r => r.deleted_at) = [some 10] ∧
    dbDeleted.fts 1 = some ⟨"ctx one", "act one", "res one", ""⟩ ∧
    ¬ FtsMirrorsActive dbDeleted := by
  refine ⟨Reachable.forgetId 10 1
    (Reachable.record 0 pNoTopic Reachable.empty), rfl, rfl, ?_⟩
  intro h
  have h1 := h 1
  revert h1
  decide

/-! ## Claim C5 -/

/-- Claim C5 (confirmed): `computeDecayFactor` is the staircase 1.0 / 0.9 /
0.7 / 0.5 over elapsed days since confirmation with thresholds 30/90/180,
returning 0.5 for a missing timestamp, and `applyDecay` computes
`effective_confidence = round(confidence * factor * 100) / 100` at read
time, leaving the stored row — in particular its confidence — unchanged.
(JavaScript number arithmetic is modelled as exact rational arithmetic.) -/
theorem decay_factor_staircase (nowMs t : ℚ) (pref : PrefRow) :
    computeDecayFactor nowMs none = 1 / 2 ∧
    ((nowMs - t) / 86400000 ≤ 30 → computeDecayFactor nowMs (some t) = 1) ∧
    (30 < (nowMs - t) / 86400000 → (nowMs - t) / 86400000 ≤ 90 →
      computeDecayFactor nowMs (some t) = 9 / 10) ∧
    (90 < (nowMs - t) / 86400000 → (nowMs - t) / 86400000 ≤ 180 →
      computeDecayFactor nowMs (some t) = 7 / 10) ∧
    (180 < (nowMs - t) / 86400000 →
      computeDecayFactor nowMs (some t) = 1 / 2) ∧
    (applyDecay nowMs pref).effective_confidence =
      (jsRound (pref.confidence *
        computeDecayFactor nowMs (pref.last_confirmed_at.map toMs) * 100) : ℚ)
        / 100 ∧
    (applyDecay nowMs pref).pref = pref := by
  have hden : (nowMs - t) / (1000 * 60 * 60 * 24) =
      (nowMs - t) / 86400000 := by norm_num
  refine ⟨rfl, ?_, ?_, ?_, ?_, rfl, rfl⟩
  · intro h1
    show (if (nowMs - t) / (1000 * 60 * 60 * 24) ≤ 30 then (1 : ℚ)
      else if (nowMs - t) / (1000 * 60 * 60 * 24) ≤ 90 then 9 / 10
      else if (nowMs - t) / (1000 * 60 * 60 * 24) ≤ 180 then 7 / 10
      else 1 / 2) = 1
    rw [if_pos (by rw [hden]; exact h1)]
  · intro h1 h2
    show (if (nowMs - t) / (1000 * 60 * 60 * 24) ≤ 30 then (1 : ℚ)
      else if (nowMs - t) / (1000 * 60 * 60 * 24) ≤ 90 then 9 / 10
      else if (nowMs - t) / (1000 * 60 * 60 * 24) ≤ 180 then 7 / 10
      else 1 / 2) = 9 / 10
    rw [if_neg (by rw [hden]; exact not_le.mpr h1),
      if_pos (by rw [hden]; exact h2)]
  · intro h1 h2
    show (if (nowMs - t) / (1000 * 60 * 60 * 24) ≤ 30 then (1 : ℚ)
      else if (nowMs - t) / (1000 * 60 * 60 * 24) ≤ 90 then 9 / 10
      else if (nowMs - t) / (1000 * 60 * 60 * 24) ≤ 180 then 7 / 10
      else 1 / 2) = 7 / 10
    rw [if_neg (by rw [hden]; intro hc; linarith),
      if_neg (by rw [hden]; exact not_le.mpr h1),
      if_pos (by rw [hden]; exact h2)]
  · intro h1
    show (if (nowMs - t) / (1000 * 60 * 60 * 24) ≤ 30 then (1 : ℚ)
      else if (nowMs - t) / (1000 * 60 * 60 * 24) ≤ 90 then 9 / 10
      else if (nowMs - t) / (1000 * 60 * 60 * 24) ≤ 180 then 7 / 10
      else 1 / 2) = 1 / 2
    rw [if_neg (by rw [hden]; intro hc; linarith),
      if_neg (by rw [hden]; intro hc; linarith),
      if_neg (by rw [hden]; exact not_le.mpr h1)]

/-- Witness for C5 at concrete inputs: a confirmation 40 days old decays to
0.9, a fresh one to 1.0, a missing timestamp to 0.5, and `applyDecay` leaves
the stored row intact. -/
theorem decay_factor_staircase_witness :
    computeDecayFactor 0 none = 1 / 2 ∧
    computeDecayFactor 3456000000 (some 0) = 9 / 10 ∧
    computeDecayFactor 0 (some 0) = 1 ∧
    (applyDecay 0 prefSample).pref = prefSample :=
  ⟨(decay_factor_staircase 0 0 prefSample).1,
   (decay_factor_staircase 3456000000 0 prefSample).2.2.1 (by norm_num)
     (by norm_num),
   (decay_factor_staircase 0 0 prefSample).2.1 (by norm_num),
   (decay_factor_staircase 0 0 prefSample).2.2.2.2.2.2⟩

/-! ## Claim C6 -/

/-- Claim C6 (confirmed): the fingerprint is case- and whitespace-run
insensitive — texts with equal canonical forms (lowercased, each whitespace
run collapsed to one space) yield the same `computeHash` — and consequently
a second no-topic-key `record` call within the 15-minute window whose
context, action and result differ from a freshly created row's only in case
or whitespace (equal project) deduplicates into that row instead of
creating a new one. -/
theorem fingerprint_case_whitespace_insensitive (p1 p2 : RecordParams)
    (db db1 : MemoryDB) (t1 t2 i : Nat)
    (hc : canonText p2.context = canonText p1.context)
    (ha : canonText p2.action = canonText p1.action)
    (hr : canonText p2.result = canonText p1.result)
    (hreach : Reachable db)
    (h1 : insertOrDeduplicate db t1 p1 = (db1, i, .created))
    (hproj : p2.project = p1.project)
    (hnt : truthyTopic p2.topic_key = none)
    (ht12 : t1 ≤ t2) (hwin : t2 ≤ t1 + dedupWindow) :
    computeHash p2.context p2.action p2.result =
      computeHash p1.context p1.action p1.result ∧
    (insertOrDeduplicate db1 t2 p2).2.2 = .deduplicated ∧
    (insertOrDeduplicate db1 t2 p2).1.experiences.length =
      db1.experiences.length := by
  have hhash := computeHash_eq_of_canon hc ha hr
  obtain ⟨hmain, hlen, -⟩ := dedup_second_call db db1 t1 t2 i p1 p2
    (reachable_inv hreach).1 h1 hhash hproj ht12 hwin
    (fun tk h => absurd (hnt.symm.trans h) (by simp))
  exact ⟨hhash, by rw [hmain], hlen⟩

/-- Witness for C6 at the spec's example strings: recording
"Hello World" / "Do X" / "OK" and then "hello   world" / "do x" / "ok" 60
seconds later hashes identically and deduplicates into the single stored
row. -/
theorem fingerprint_case_whitespace_insensitive_witness :
    computeHash "hello   world" "do x" "ok" =
      computeHash "Hello World" "Do X" "OK" ∧
    (insertOrDeduplicate (insertOrDeduplicate emptyDB 0 pCase1).1 60
      pCase2).2.2 = .deduplicated ∧
    (insertOrDeduplicate (insertOrDeduplicate emptyDB 0 pCase1).1 60
        pCase2).1.experiences.length =
      (insertOrDeduplicate emptyDB 0 pCase1).1.experiences.length :=
  fingerprint_case_whitespace_insensitive pCase1 pCase2 emptyDB
    (insertOrDeduplicate emptyDB 0 pCase1).1 0 60 1 (by decide) (by decide)
    (by decide) Reachable.empty rfl rfl rfl (by decide) (by decide)

/-! ## Claim C7 -/

/-- Claim C7 (amended): the total reported by `forget_memory` equals the
number of rows it newly soft-deleted.  The three selectors run sequentially
and every soft-delete UPDATE is filtered by `deleted_at IS NULL`, so a row
matched by several selectors is soft-deleted and counted exactly once; the
reported sum never double counts. -/
theorem forget_total_counts_each_row_once (db db' : MemoryDB) (now n : Nat)
    (id : Option Nat) (tag project : Option String)
    (h : forgetMemory db now id tag project = (db', some n)) :
    n + activeCount db' = activeCount db := by
  simp only [forgetMemory] at h
  split at h
  · simp at h
  · simp only [Prod.mk.injEq, Option.some.injEq] at h
    obtain ⟨hdb, hn⟩ := h
    subst hdb
    subst hn
    have e1 := forgetById_activeCount now id db
    have e2 := forgetByTag_activeCount now tag (forgetById now id db).1
    have e3 := forgetByProject_activeCount now project
      (forgetByTag now tag (forgetById now id db).1).1
    omega

/-- Witness for C7 at a concrete input: deleting the single row of
`dbTagged` through all three selectors at once reports 1, which is exactly
the drop in active rows. -/
theorem forget_total_counts_each_row_once_witness :
    (1 : Nat) + activeCount
        (forgetMemory dbTagged 5 (some 1) (some "x") (some "p")).1 =
      activeCount dbTagged :=
  forget_total_counts_each_row_once dbTagged
    (forgetMemory dbTagged 5 (some 1) (some "x") (some "p")).1 5 1 (some 1)
    (some "x") (some "p") rfl

/-- Counterexample to C7 as stated: `dbTagged` holds one active row (id 1,
tag "x", project "p") matched by each of the three selectors on its own, so
the claimed sum without cross-selector deduplication is 3; the call reports
1, because the tag and project UPDATEs skip the row the id selector already
soft-deleted. -/
theorem forget_total_not_sum_of_selector_counts :
    (forgetMemory dbTagged 5 (some 1) (some "x") (some "p")).2 = some 1 ∧
    matchedById dbTagged 1 = 1 ∧ matchedByTag dbTagged "x" = 1 ∧
    matchedByProject dbTagged "p" = 1 ∧
    matchedById dbTagged 1 + matchedByTag dbTagged "x" +
      matchedByProject dbTagged "p" = 3 ∧
    (1 : Nat) ≠ 3 :=
  ⟨rfl, rfl, rfl, rfl, rfl, by decide⟩

/-! ## Claim C8 -/

/-- Claim C8 (amended): `getTimeline` returns exactly the active rows whose
`created_at` lies within ±1 hour of the anchor row's `created_at`, in
ascending time order, capped at 20 rows — the output is as long as the
window population up to the cap, and whenever at most 20 rows fall in the
window it is a permutation of all of them — and it returns an empty result
when the id does not exist at all.  The anchor subquery has no `deleted_at`
filter, so a soft-deleted target still anchors the window instead of
yielding an empty result (see the counterexample). -/
theorem getExperienceTimeline_spec (db : MemoryDB) (id : Nat)
    (target : ExpRow) (x : CompactRow) :
    (db.experiences.find? (fun r => r.id == id) = none →
      getExperienceTimeline db id = []) ∧
    List.Sorted (fun a b : CompactRow => a.created_at ≤ b.created_at)
      (getExperienceTimeline db id) ∧
    (getExperienceTimeline db id).length ≤ 20 ∧
    (db.experiences.find? (fun r => r.id == id) = some target →
      x ∈ getExperienceTimeline db id →
      x ∈ (db.experiences.filter fun r => r.deleted_at.isNone &&
            decide (target.created_at ≤ r.created_at + 3600) &&
            decide (r.created_at ≤ target.created_at + 3600)).map
              compactOf) ∧
    (db.experiences.find? (fun r => r.id == id) = some target →
      (getExperienceTimeline db id).length =
        min 20 (db.experiences.filter fun r => r.deleted_at.isNone &&
          decide (target.created_at ≤ r.created_at + 3600) &&
          decide (r.created_at ≤ target.created_at + 3600)).length) ∧
    (db.experiences.find? (fun r => r.id == id) = some target →
      (db.experiences.filter fun r => r.deleted_at.isNone &&
        decide (target.created_at ≤ r.created_at + 3600) &&
        decide (r.created_at ≤ target.created_at + 3600)).length ≤ 20 →
      (getExperienceTimeline db id).Perm
        ((db.experiences.filter fun r => r.deleted_at.isNone &&
          decide (target.created_at ≤ r.created_at + 3600) &&
          decide (r.created_at ≤ target.created_at + 3600)).map
            compactOf)) := by
  haveI : IsTotal CompactRow (fun a b => a.created_at ≤ b.created_at) :=
    ⟨fun a b => Nat.le_total a.created_at b.created_at⟩
  haveI : IsTrans CompactRow (fun a b => a.created_at ≤ b.created_at) :=
    ⟨fun _ _ _ hab hbc => le_trans hab hbc⟩
  refine ⟨?_, ?_, ?_, ?_, ?_, ?_⟩
  · intro h
    unfold getExperienceTimeline
    rw [h]
  · unfold getExperienceTimeline
    cases hfind : db.experiences.find? (fun r => r.id == id) with
    | none => exact List.sorted_nil
    | some t =>
      exact (List.sorted_insertionSort _ _).sublist (List.take_sublist _ _)
  · unfold getExperienceTimeline
    cases hfind : db.experiences.find? (fun r => r.id == id) with
    | none => simp
    | some t => simp [List.length_take_le]
  · intro hfind hx
    unfold getExperienceTimeline at hx
    rw [hfind] at hx
    have hx1 := List.mem_of_mem_take hx
    have hx2 := (List.perm_insertionSort
      (fun a b : CompactRow => a.created_at ≤ b.created_at) _).mem_iff.mp hx1
    exact hx2
  · intro hfind
    unfold getExperienceTimeline
    rw [hfind, List.length_take, (List.perm_insertionSort
      (fun a b : CompactRow => a.created_at ≤ b.created_at) _).length_eq,
      List.length_map]
  · intro hfind hlen
    unfold getExperienceTimeline
    rw [hfind]
    have hl : (((db.experiences.filter fun r => r.deleted_at.isNone &&
        decide (target.created_at ≤ r.created_at + 3600) &&
        decide (r.created_at ≤ target.created_at + 3600)).map
          compactOf).insertionSort
        (fun a b : CompactRow => a.created_at ≤ b.created_at)).length ≤
        20 := by
      rw [(List.perm_insertionSort
        (fun a b : CompactRow => a.created_at ≤ b.created_at) _).length_eq,
        List.length_map]
      exact hlen
    have hperm : ((((db.experiences.filter fun r => r.deleted_at.isNone &&
        decide (target.created_at ≤ r.created_at + 3600) &&
        decide (r.created_at ≤ target.created_at + 3600)).map
          compactOf).insertionSort
        (fun a b : CompactRow => a.created_at ≤ b.created_at)).take 20).Perm
        ((db.experiences.filter fun r => r.deleted_at.isNone &&
          decide (target.created_at ≤ r.created_at + 3600) &&
          decide (r.created_at ≤ target.created_at + 3600)).map
            compactOf) := by
      rw [List.take_of_length_le hl]
      exact List.perm_insertionSort _ _
    exact hperm

/-- Witness for C8 at concrete inputs: in `dbTimeline`, the timeline around
the active row 2 is sorted ascending, at most 20 rows long, its member (row
2's compact projection) stems from an active row within ±1 hour of row 2,
its length equals the capped window population, and it is a permutation of
all windowed active rows; a non-existent id 99 yields the empty timeline. -/
theorem getExperienceTimeline_spec_witness :
    List.Sorted (fun a b : CompactRow => a.created_at ≤ b.created_at)
      (getExperienceTimeline dbTimeline 2) ∧
    (getExperienceTimeline dbTimeline 2).length ≤ 20 ∧
    compactOf rowBeta ∈ (dbTimeline.experiences.filter fun r =>
      r.deleted_at.isNone &&
        decide (rowBeta.created_at ≤ r.created_at + 3600) &&
        decide (r.created_at ≤ rowBeta.created_at + 3600)).map compactOf ∧
    (getExperienceTimeline dbTimeline 2).length =
      min 20 (dbTimeline.experiences.filter fun r =>
        r.deleted_at.isNone &&
          decide (rowBeta.created_at ≤ r.created_at + 3600) &&
          decide (r.created_at ≤ rowBeta.created_at + 3600)).length ∧
    (getExperienceTimeline dbTimeline 2).Perm
      ((dbTimeline.experiences.filter fun r =>
        r.deleted_at.isNone &&
          decide (rowBeta.created_at ≤ r.created_at + 3600) &&
          decide (r.created_at ≤ rowBeta.created_at + 3600)).map compactOf) ∧
    getExperienceTimeline dbTimeline 99 = [] :=
  ⟨(getExperienceTimeline_spec dbTimeline 2 rowBeta
      (compactOf rowBeta)).2.1,
   (getExperienceTimeline_spec dbTimeline 2 rowBeta
      (compactOf rowBeta)).2.2.1,
   (getExperienceTimeline_spec dbTimeline 2 rowBeta
      (compactOf rowBeta)).2.2.2.1 rfl (by decide),
   (getExperienceTimeline_spec dbTimeline 2 rowBeta
      (compactOf rowBeta)).2.2.2.2.1 rfl,
   (getExperienceTimeline_spec dbTimeline 2 rowBeta
      (compactOf rowBeta)).2.2.2.2.2 rfl (by decide),
   (getExperienceTimeline_spec dbTimeline 99 rowBeta
      (compactOf rowBeta)).1 rfl⟩

/-- Counterexample to C8 as stated: in `dbTimeline` the target row 1 exists
but is soft-deleted, and `getTimeline(1)` still returns a non-empty list
(the active neighbor within the hour) rather than the claimed empty
result, because the anchor subquery lacks a `deleted_at` filter. -/
theorem timeline_of_deleted_target_not_empty :
    ((dbTimeline.experiences.find? fun r => r.id == 1).map
      fun r => r.deleted_at) = some (some 2000) ∧
    (getExperienceTimeline dbTimeline 1).length = 1 ∧
    getExperienceTimeline dbTimeline 1 ≠ [] :=
  ⟨rfl, rfl, by decide⟩

/-! ## Claim C9 -/

/-- Claim C9 (amended): both compact searches return results ordered
descending by the score `0.5 * relevance + 0.3 * recency + 0.2 * outcome`
(the project variant adding the 0.1 scope bonus), capped at `limit`, and
every result is the compact projection of an active matching row (for the
project variant, of the requested or the empty project).  The ORDER BY has
no secondary key, so candidates with equal scores keep scan order; they are
not reordered by `created_at` descending (see the counterexample). -/
theorem search_ordered_by_score (db : MemoryDB) (matchQ : FtsEntry → Bool)
    (bm25 : Nat → ℚ) (now limit : Nat) (project : String) (x : CompactRow) :
    List.Sorted (fun a b : CompactRow =>
      compactScore bm25 now b ≤ compactScore bm25 now a)
      (searchExperiencesCompact db matchQ bm25 now limit) ∧
    (searchExperiencesCompact db matchQ bm25 now limit).length ≤ limit ∧
    (x ∈ searchExperiencesCompact db matchQ bm25 now limit →
      x ∈ (db.experiences.filter fun r =>
        ftsMatches db matchQ r && r.deleted_at.isNone).map compactOf) ∧
    List.Sorted (fun a b : CompactRow =>
      compactScoreByProject bm25 now project b ≤
        compactScoreByProject bm25 now project a)
      (searchExperiencesCompactByProject db matchQ bm25 project now limit) ∧
    (searchExperiencesCompactByProject db matchQ bm25 project now
      limit).length ≤ limit ∧
    (x ∈ searchExperiencesCompactByProject db matchQ bm25 project now limit →
      x ∈ (db.experiences.filter fun r => ftsMatches db matchQ r &&
        (r.project == project || r.project == "") &&
        r.deleted_at.isNone).map compactOf) := by
  haveI h1 : IsTotal ExpRow (fun a b =>
      searchScore bm25 now b ≤ searchScore bm25 now a) :=
    ⟨fun a b => le_total _ _⟩
  haveI h2 : IsTrans ExpRow (fun a b =>
      searchScore bm25 now b ≤ searchScore bm25 now a) :=
    ⟨fun _ _ _ hab hbc => le_trans hbc hab⟩
  haveI h3 : IsTotal ExpRow (fun a b =>
      searchScoreByProject bm25 now project b ≤
        searchScoreByProject bm25 now project a) :=
    ⟨fun a b => le_total _ _⟩
  haveI h4 : IsTrans ExpRow (fun a b =>
      searchScoreByProject bm25 now project b ≤
        searchScoreByProject bm25 now project a) :=
    ⟨fun _ _ _ hab hbc => le_trans hbc hab⟩
  refine ⟨?_, ?_, ?_, ?_, ?_, ?_⟩
  · exact (((List.sorted_insertionSort _ _).map compactOf
      (fun a b h => by
        rw [compactScore_compactOf, compactScore_compactOf]
        exact h)).sublist (List.take_sublist _ _))
  · exact List.length_take_le _ _
  · intro hx
    have hx1 := List.mem_of_mem_take hx
    obtain ⟨r, hr, rfl⟩ := List.mem_map.mp hx1
    exact List.mem_map_of_mem compactOf
      ((List.perm_insertionSort _ _).mem_iff.mp hr)
  · exact (((List.sorted_insertionSort _ _).map compactOf
      (fun a b h => by
        rw [compactScoreByProject_compactOf, compactScoreByProject_compactOf]
        exact h)).sublist (List.take_sublist _ _))
  · exact List.length_take_le _ _
  · intro hx
    have hx1 := List.mem_of_mem_take hx
    obtain ⟨r, hr, rfl⟩ := List.mem_map.mp hx1
    exact List.mem_map_of_mem compactOf
      ((List.perm_insertionSort _ _).mem_iff.mp hr)

theorem searchRow1_score : searchScore bm25Tie 172800 searchRow1 = 4 / 5 := by
  have hid : searchRow1.id = 1 := rfl
  have hcr : searchRow1.created_at = 0 := rfl
  have hsu : searchRow1.success = 1 := rfl
  rw [searchScore, hid, hcr, hsu]
  norm_num [recencyScore, successScore, bm25Tie]

theorem searchRow2_score : searchScore bm25Tie 172800 searchRow2 = 4 / 5 := by
  have hid : searchRow2.id = 2 := rfl
  have hcr : searchRow2.created_at = 86400 := rfl
  have hsu : searchRow2.success = 1 := rfl
  rw [searchScore, hid, hcr, hsu]
  norm_num [recencyScore, successScore, bm25Tie]

theorem searchTie_eval :
    searchExperiencesCompact dbSearch (fun _ => true) bm25Tie 172800 5 =
      [compactOf searchRow1, compactOf searchRow2] := by
  unfold searchExperiencesCompact
  rw [show (dbSearch.experiences.filter fun r =>
      ftsMatches dbSearch (fun _ => true) r && r.deleted_at.isNone) =
      [searchRow1, searchRow2] from by decide]
  rw [show ([searchRow1, searchRow2].insertionSort fun a b =>
      searchScore bm25Tie 172800 b ≤ searchScore bm25Tie 172800 a) =
      [searchRow1, searchRow2] from by
    simp [List.insertionSort, List.orderedInsert, searchRow1_score,
      searchRow2_score]]
  rfl

theorem searchTieByProject_eval :
    searchExperiencesCompactByProject dbSearch (fun _ => true) bm25Tie ""
      172800 5 = [compactOf searchRow1, compactOf searchRow2] := by
  have hp1 : searchRow1.project = "" := rfl
  have hp2 : searchRow2.project = "" := rfl
  unfold searchExperiencesCompactByProject
  rw [show (dbSearch.experiences.filter fun r =>
      ftsMatches dbSearch (fun _ => true) r &&
        (r.project == "" || r.project == "") && r.deleted_at.isNone) =
      [searchRow1, searchRow2] from by decide]
  rw [show ([searchRow1, searchRow2].insertionSort fun a b =>
      searchScoreByProject bm25Tie 172800 "" b ≤
        searchScoreByProject bm25Tie 172800 "" a) =
      [searchRow1, searchRow2] from by
    simp [List.insertionSort, List.orderedInsert, searchScoreByProject,
      searchRow1_score, searchRow2_score, hp1, hp2]]
  rfl

/-- Witness for C9 at a concrete input: the search over `dbSearch` with the
tie-making relevance oracle is sorted nonincreasing by score, within the
limit, and each stated member is the projection of an active matching
row. -/
theorem search_ordered_by_score_witness :
    List.Sorted (fun a b : CompactRow =>
      compactScore bm25Tie 172800 b ≤ compactScore bm25Tie 172800 a)
      (searchExperiencesCompact dbSearch (fun _ => true) bm25Tie 172800 5) ∧
    (searchExperiencesCompact dbSearch (fun _ => true) bm25Tie 172800
      5).length ≤ 5 ∧
    compactOf searchRow1 ∈ (dbSearch.experiences.filter fun r =>
      ftsMatches dbSearch (fun _ => true) r && r.deleted_at.isNone).map
        compactOf ∧
    List.Sorted (fun a b : CompactRow =>
      compactScoreByProject bm25Tie 172800 "" b ≤
        compactScoreByProject bm25Tie 172800 "" a)
      (searchExperiencesCompactByProject dbSearch (fun _ => true) bm25Tie ""
        172800 5) ∧
    compactOf searchRow1 ∈ (dbSearch.experiences.filter fun r =>
      ftsMatches dbSearch (fun _ => true) r &&
        (r.project == "" || r.project == "") && r.deleted_at.isNone).map
          compactOf :=
  ⟨(search_ordered_by_score dbSearch (fun _ => true) bm25Tie 172800 5 ""
      (compactOf searchRow1)).1,
   (search_ordered_by_score dbSearch (fun _ => true) bm25Tie 172800 5 ""
      (compactOf searchRow1)).2.1,
   (search_ordered_by_score dbSearch (fun _ => true) bm25Tie 172800 5 ""
      (compactOf searchRow1)).2.2.1
     (by rw [searchTie_eval]; decide),
   (search_ordered_by_score dbSearch (fun _ => true) bm25Tie 172800 5 ""
      (compactOf searchRow1)).2.2.2.1,
   (search_ordered_by_score dbSearch (fun _ => true) bm25Tie 172800 5 ""
      (compactOf searchRow1)).2.2.2.2.2
     (by rw [searchTieByProject_eval]; decide)⟩

/-- Counterexample to C9 as stated: in `dbSearch` under the oracle
`bm25Tie` the two candidates score equally, yet the search returns the
older row 1 before the newer row 2 — scan order, not the claimed
`created_at` descending tie-break, which would list row 2 first. -/
theorem search_equal_scores_not_newest_first :
    searchScore bm25Tie 172800 searchRow1 =
      searchScore bm25Tie 172800 searchRow2 ∧
    searchRow1.created_at < searchRow2.created_at ∧
    searchExperiencesCompact dbSearch (fun _ => true) bm25Tie 172800 5 =
      [compactOf searchRow1, compactOf searchRow2] ∧
    compactOf searchRow1 ≠ compactOf searchRow2 :=
  ⟨searchRow1_score.trans searchRow2_score.symm, by decide, searchTie_eval,
   by decide⟩

/-! ## Claim C10 -/

/-- Claim C10 (confirmed): `forget_memory` treats an id of 0 and
empty-string tag or project as absent selectors — a call in which every
supplied selector is falsy is rejected as a validation error with the state
unchanged — and an empty-string tag never triggers the tag soft-delete: the
call behaves exactly as if the tag had been omitted, so the
`LIKE '%' || tag || '%'` pattern that would match every active row is never
executed. -/
theorem forget_falsy_selectors (db : MemoryDB) (now : Nat) (id : Option Nat)
    (tag project : Option String) :
    ((id = none ∨ id = some 0) → (tag = none ∨ tag = some "") →
      (project = none ∨ project = some "") →
      forgetMemory db now id tag project = (db, none)) ∧
    forgetMemory db now id (some "") project =
      forgetMemory db now id none project := by
  constructor
  · rintro (rfl | rfl) (rfl | rfl) (rfl | rfl) <;> rfl
  · rfl

/-- Witness for C10 at concrete inputs: the all-falsy call on `dbTagged` is
rejected with no state change, and supplying an empty tag next to a real id
behaves exactly like omitting the tag. -/
theorem forget_falsy_selectors_witness :
    forgetMemory dbTagged 5 (some 0) (some "") (some "") =
      (dbTagged, none) ∧
    forgetMemory dbTagged 5 (some 1) (some "") none =
      forgetMemory dbTagged 5 (some 1) none none :=
  ⟨(forget_falsy_selectors dbTagged 5 (some 0) (some "") (some "")).1
      (Or.inr rfl) (Or.inr rfl) (Or.inr rfl),
   (forget_falsy_selectors dbTagged 5 (some 1) (some "") none).2⟩

end AgentMemory
